import Mathlib

/-!
Verification of the coverage aggregation and diff pipeline.

Shallow embedding of the TypeScript sources:
  src/diff.ts        → computeFileDiffs, buildToolReport, buildFullReport
  src/lcov.ts        → parseLcov
  src/gocover.ts     → parseGoCover
  src/render.ts      → deltaStr
  src/types.ts       → FileCoverage, FileCoverageDelta, ToolCoverageReport, CoverageReport

Modelling conventions:
  - JavaScript numbers are modelled as exact rationals (ℚ). All quantities in the
    pipeline are produced by integer counting, division, and Math.round, so exact
    rational arithmetic coincides with IEEE double arithmetic at every claim we
    settle except where noted.
  - Math.round(x) is floor(x + 1/2) (JavaScript rounds half toward positive
    infinity), modelled by jsRound.
  - String.prototype.localeCompare is modelled as lexicographic comparison of
    Unicode code points (charListLe / strLe); for the ASCII file paths of
    coverage reports this is the default-locale behaviour being described by
    the specification as lexicographic order.
  - Array.prototype.sort is a stable sort with respect to the comparator, hence
    modelled by List.mergeSort with the same comparator.
  - parseInt(s, 10) is modelled by jsParseInt : List Char → Option ℤ, none
    standing for NaN.
  - In parseLcov, an LH:/LF: directive whose numeric field does not parse
    leaves NaN in the JavaScript record when the LH/LF fallback fires; that NaN
    is modelled as 0 here. Such a record has percent = 100 in both semantics,
    and no claim below depends on the covered/total fields of that corner case.
  - new Date().toISOString() in buildFullReport is impure; the timestamp is an
    explicit argument generatedAt here.
-/

/-! ### Numeric primitives -/

/-- JavaScript Math.round on an exact rational: floor of x + 1/2
(rounds half toward positive infinity, so Math.round(-0.5) = 0). -/
def jsRound (x : ℚ) : ℤ := ⌊x + 1/2⌋

/-- The rounding applied to deltas in diff.ts: Math.round(x * 100) / 100. -/
def round2 (x : ℚ) : ℚ := ((jsRound (x * 100) : ℤ) : ℚ) / 100

/-- The percent derivation used at every record construction site:
total > 0 ? Math.round((covered / total) * 10000) / 100 : 100. -/
def pctOf (covered total : ℚ) : ℚ :=
  if total > 0 then ((jsRound (covered / total * 10000) : ℤ) : ℚ) / 100 else 100

/-- Round half away from zero, scaled by 100: the rounding mode the
specification text names. Written from the words of the spec, for comparison
with round2 (the rounding the code performs). -/
def round2AwaySpec (x : ℚ) : ℚ :=
  ((if 0 ≤ x then ⌊x * 100 + 1/2⌋ else -⌊-(x * 100) + 1/2⌋ : ℤ) : ℚ) / 100

/-! ### String primitives -/

/-- Lexicographic comparison of char lists by code point. -/
def charListLe : List Char → List Char → Bool
  | [], _ => true
  | _ :: _, [] => false
  | a :: as, b :: bs =>
    if a.toNat < b.toNat then true
    else if b.toNat < a.toNat then false
    else charListLe as bs

/-- Model of a.localeCompare(b) ≤ 0 used by the sort comparators. -/
def strLe (a b : String) : Bool := charListLe a.data b.data

/-- JS-style whitespace test (ASCII whitespace; the coverage inputs are ASCII). -/
def isJsSpace (c : Char) : Bool := c.isWhitespace

/-- String.prototype.trim on char lists. -/
def trimChars (cs : List Char) : List Char :=
  ((cs.dropWhile isJsSpace).reverse.dropWhile isJsSpace).reverse

/-- Fuel-driven worker for splitChars; fuel ≥ cs.length makes the fuel bound
unreachable. Structural recursion on the fuel keeps the definition
kernel-reducible. -/
def splitCharsF (sep : List Char) : Nat → List Char → List Char → List (List Char)
  | 0, cs, acc => [acc.reverse ++ cs]
  | fuel + 1, cs, acc =>
    match cs with
    | [] => [acc.reverse]
    | c :: rest =>
      if sep ≠ [] ∧ sep.isPrefixOf cs then
        acc.reverse :: splitCharsF sep fuel (cs.drop sep.length) []
      else
        splitCharsF sep fuel rest (c :: acc)

/-- String.prototype.split with a non-empty string separator, on char lists. -/
def splitChars (sep cs : List Char) : List (List Char) :=
  splitCharsF sep cs.length cs []

/-- Numeric value of a run of decimal digits. -/
def digitsVal (ds : List Char) : Nat :=
  ds.foldl (fun a c => a * 10 + (c.toNat - 48)) 0

/-- parseInt(s, 10): skip leading whitespace, optional sign, then the longest
leading run of decimal digits; none models NaN. -/
def jsParseInt (cs : List Char) : Option ℤ :=
  let cs := cs.dropWhile isJsSpace
  match cs with
  | '-' :: rest =>
    let ds := rest.takeWhile Char.isDigit
    if ds.isEmpty then none else some (-(digitsVal ds : ℤ))
  | '+' :: rest =>
    let ds := rest.takeWhile Char.isDigit
    if ds.isEmpty then none else some ((digitsVal ds : ℤ))
  | _ =>
    let ds := cs.takeWhile Char.isDigit
    if ds.isEmpty then none else some ((digitsVal ds : ℤ))

/-- Split a char list at the last occurrence of a char (String.lastIndexOf
followed by the two slices); none when the char does not occur. -/
def splitLastOn (c : Char) (cs : List Char) : Option (List Char × List Char) :=
  let rev := cs.reverse
  let sufRev := rev.takeWhile (fun d => d ≠ c)
  if sufRev.length = rev.length then none
  else some ((rev.drop (sufRev.length + 1)).reverse, sufRev.reverse)

/-- Split a char list at the first occurrence of a char (String.indexOf
followed by the two slices); none when the char does not occur. -/
def splitFirstOn (c : Char) (cs : List Char) : Option (List Char × List Char) :=
  let pre := cs.takeWhile (fun d => d ≠ c)
  if pre.length = cs.length then none
  else some (pre, cs.drop (pre.length + 1))

/-! ### Data model (types.ts) -/

/-- Unified coverage record for a single file. -/
structure FileCoverage where
  file : String
  coveredLines : ℚ
  totalLines : ℚ
  percent : ℚ
deriving DecidableEq

/-- Per-file delta compared against a base. -/
structure FileCoverageDelta where
  file : String
  coveredLines : ℚ
  totalLines : ℚ
  percent : ℚ
  baseCoveredLines : Option ℚ
  baseTotalLines : Option ℚ
  basePercent : Option ℚ
  delta : Option ℚ
deriving DecidableEq

/-- The summary block of a ToolCoverageReport. -/
structure ToolSummary where
  coveredLines : ℚ
  totalLines : ℚ
  percent : ℚ
  baseCoveredLines : Option ℚ
  baseTotalLines : Option ℚ
  basePercent : Option ℚ
  delta : Option ℚ
deriving DecidableEq

/-- Aggregated result for a single tool. -/
structure ToolCoverageReport where
  tool : String
  files : List FileCoverageDelta
  summary : ToolSummary
  warnings : List String
deriving DecidableEq

/-- The overall block of the full report. -/
structure OverallSummary where
  coveredLines : ℚ
  totalLines : ℚ
  percent : ℚ
  basePercent : Option ℚ
  delta : Option ℚ
deriving DecidableEq

/-- Full report across all tools. -/
structure CoverageReport where
  tools : List ToolCoverageReport
  overall : OverallSummary
  generatedAt : String
deriving DecidableEq

/-- Serialisable cache artifact. -/
structure CoverageArtifact where
  tool : String
  files : List FileCoverage
  commitSha : String
  branch : String
  timestamp : String
deriving DecidableEq

/-! ### Line-coverage parser (lcov.ts parseLcov) -/

/-- State of the per-record directive scan in parseLcov: the SF: path, the
DA-derived counters, and the last LH:/LF: values (outer none = the JS variable
is still null, inner none = the directive parsed to NaN). -/
structure LcovScan where
  file : Option (List Char)
  covered : Nat
  total : Nat
  lh : Option (Option ℤ)
  lf : Option (Option ℤ)
deriving DecidableEq

def lcovInit : LcovScan := ⟨none, 0, 0, none, none⟩

/-- One iteration of the directive loop in parseLcov. -/
def lcovStep (st : LcovScan) (line : List Char) : LcovScan :=
  if ("SF:".data).isPrefixOf line then
    { st with file := some (trimChars (line.drop 3)) }
  else if ("DA:".data).isPrefixOf line then
    match splitChars [','] (line.drop 3) with
    | _ :: countStr :: _ =>
      { st with
        total := st.total + 1
        covered :=
          match jsParseInt countStr with
          | some n => if n > 0 then st.covered + 1 else st.covered
          | none => st.covered }
    | _ => st
  else if ("LH:".data).isPrefixOf line then
    { st with lh := some (jsParseInt (line.drop 3)) }
  else if ("LF:".data).isPrefixOf line then
    { st with lf := some (jsParseInt (line.drop 3)) }
  else st

/-- Process one end_of_record block of parseLcov; none when the block is
discarded (blank, or no SF: path, or an empty SF: path — the JS test
if (!file) treats the empty string as falsy). NaN fallback values are
modelled as 0 (see the header note). -/
def lcovScanRecord (record : List Char) : Option (List Char × ℤ × ℤ) :=
  let trimmed := trimChars record
  if trimmed.isEmpty then none
  else
    let lines := (splitChars ['\n'] trimmed).map trimChars
    let st := lines.foldl lcovStep lcovInit
    match st.file with
    | none => none
    | some f =>
      if f.isEmpty then none
      else
        let counts : ℤ × ℤ :=
          match st.lf with
          | some lfv =>
            if st.total = 0 then (((st.lh.getD (some 0)).getD 0), lfv.getD 0)
            else ((st.covered : ℤ), (st.total : ℤ))
          | none => ((st.covered : ℤ), (st.total : ℤ))
        some (f, counts)

/-- Derive the FileCoverage record from the scan of one block. -/
def mkLcovRecord (e : List Char × ℤ × ℤ) : FileCoverage :=
  { file := ⟨e.1⟩, coveredLines := (e.2.1 : ℚ), totalLines := (e.2.2 : ℚ),
    percent := pctOf (e.2.1 : ℚ) (e.2.2 : ℚ) }

def parseLcovRecord (record : List Char) : Option FileCoverage :=
  (lcovScanRecord record).map mkLcovRecord

/-- parseLcov: split the artifact text on end_of_record and emit one record
per non-discarded block, in block order. -/
def parseLcov (content : String) : List FileCoverage :=
  (splitChars ("end_of_record".data) content.data).filterMap parseLcovRecord

/-! ### Statement-coverage parser (gocover.ts parseGoCover) -/

/-- Parse one line of a Go coverage profile into (file path, numStmts, count);
none for blank lines, the mode: line, and lines missing the two trailing
space-delimited numeric tokens or the colon. -/
def parseGoLine (raw : List Char) : Option (List Char × ℤ × ℤ) :=
  let line := trimChars raw
  if line.isEmpty then none
  else if ("mode:".data).isPrefixOf line then none
  else
    match splitLastOn ' ' line with
    | none => none
    | some (rest, countStr) =>
      match splitLastOn ' ' rest with
      | none => none
      | some (fileRange, numStmtsStr) =>
        match splitFirstOn ':' fileRange with
        | none => none
        | some (file, _) =>
          match jsParseInt numStmtsStr, jsParseInt countStr with
          | some numStmts, some count => some (file, numStmts, count)
          | _, _ => none

/-- One fileMap update of parseGoCover: entry.total += numStmts and, when
count > 0, entry.covered += numStmts; a JS Map keeps the first-insertion
position of a key, so an existing entry is updated in place and a new key is
appended. Entries are (file, covered, total). -/
def goAccum : List (List Char × ℤ × ℤ) → List Char × ℤ × ℤ → List (List Char × ℤ × ℤ)
  | [], (f, s, c) => [(f, if c > 0 then s else 0, s)]
  | (g, cov, tot) :: rest, (f, s, c) =>
    if g = f then (g, cov + (if c > 0 then s else 0), tot + s) :: rest
    else (g, cov, tot) :: goAccum rest (f, s, c)

/-- The per-line parse results of parseGoCover, in input order. -/
def goParsedLines (content : String) : List (List Char × ℤ × ℤ) :=
  (splitChars ['\n'] content.data).filterMap parseGoLine

/-- Derive the FileCoverage record from one aggregated fileMap entry. -/
def mkGoRecord (e : List Char × ℤ × ℤ) : FileCoverage :=
  { file := ⟨e.1⟩, coveredLines := (e.2.1 : ℚ), totalLines := (e.2.2 : ℚ),
    percent := pctOf (e.2.1 : ℚ) (e.2.2 : ℚ) }

/-- parseGoCover: aggregate statements per file, then sort by file path. -/
def parseGoCover (content : String) : List FileCoverage :=
  let grouped := (goParsedLines content).foldl goAccum []
  (grouped.map mkGoRecord).mergeSort (fun a b => strLe a.file b.file)

/-! ### Diff engine (diff.ts) -/

/-- baseMap.get(path): the Map is filled by insertion order with set
overwriting, so the last base record with a given path wins. -/
def baseLookup (baseFiles : List FileCoverage) (p : String) : Option FileCoverage :=
  baseFiles.reverse.find? (fun f => f.file == p)

/-- The delta record pushed for one head record in computeFileDiffs. -/
def headDelta (baseFiles : List FileCoverage) (head : FileCoverage) : FileCoverageDelta :=
  match baseLookup baseFiles head.file with
  | some base =>
    { file := head.file
      coveredLines := head.coveredLines
      totalLines := head.totalLines
      percent := head.percent
      baseCoveredLines := some base.coveredLines
      baseTotalLines := some base.totalLines
      basePercent := some base.percent
      delta := some (round2 (head.percent - base.percent)) }
  | none =>
    { file := head.file
      coveredLines := head.coveredLines
      totalLines := head.totalLines
      percent := head.percent
      baseCoveredLines := none
      baseTotalLines := none
      basePercent := none
      delta := none }

/-- The synthetic record pushed for a base file that is gone in head. -/
def deletedDelta (base : FileCoverage) : FileCoverageDelta :=
  { file := base.file
    coveredLines := 0
    totalLines := 0
    percent := 0
    baseCoveredLines := some base.coveredLines
    baseTotalLines := some base.totalLines
    basePercent := some base.percent
    delta := some (-base.percent) }

/-- result.sort((a, b) => a.file.localeCompare(b.file)). -/
def sortByFile (l : List FileCoverageDelta) : List FileCoverageDelta :=
  l.mergeSort (fun a b => strLe a.file b.file)

/-- computeFileDiffs from diff.ts. -/
def computeFileDiffs (headFiles : List FileCoverage)
    (baseFiles : Option (List FileCoverage)) : List FileCoverageDelta :=
  let bs := baseFiles.getD []
  let headDeltas := headFiles.map (headDelta bs)
  let deleted :=
    match baseFiles with
    | none => []
    | some bfs =>
      (bfs.filter (fun b => !(headFiles.any (fun h => h.file == b.file)))).map deletedDelta
  sortByFile (headDeltas ++ deleted)

/-- buildToolReport from diff.ts. The reduce((s, f) => s + f.coveredLines, 0)
folds are written as sums of the mapped lists. -/
def buildToolReport (tool : String) (headFiles : List FileCoverage)
    (baseArtifact : Option CoverageArtifact) (warnings : List String) :
    ToolCoverageReport :=
  let baseFiles := baseArtifact.map (fun a => a.files)
  let files := computeFileDiffs headFiles baseFiles
  let coveredLines := (headFiles.map (fun f => f.coveredLines)).sum
  let totalLines := (headFiles.map (fun f => f.totalLines)).sum
  let percent := pctOf coveredLines totalLines
  match baseFiles with
  | some bfs =>
    if bfs.length > 0 then
      let baseCoveredLines := (bfs.map (fun f => f.coveredLines)).sum
      let baseTotalLines := (bfs.map (fun f => f.totalLines)).sum
      let basePercent := pctOf baseCoveredLines baseTotalLines
      { tool := tool, files := files
        summary :=
          { coveredLines := coveredLines, totalLines := totalLines, percent := percent
            baseCoveredLines := some baseCoveredLines
            baseTotalLines := some baseTotalLines
            basePercent := some basePercent
            delta := some (round2 (percent - basePercent)) }
        warnings := warnings }
    else
      { tool := tool, files := files
        summary :=
          { coveredLines := coveredLines, totalLines := totalLines, percent := percent
            baseCoveredLines := none, baseTotalLines := none
            basePercent := none, delta := none }
        warnings := warnings }
  | none =>
    { tool := tool, files := files
      summary :=
        { coveredLines := coveredLines, totalLines := totalLines, percent := percent
          baseCoveredLines := none, baseTotalLines := none
          basePercent := none, delta := none }
      warnings := warnings }

/-- buildFullReport from diff.ts; generatedAt stands for the impure
new Date().toISOString(). -/
def buildFullReport (toolReports : List ToolCoverageReport) (generatedAt : String) :
    CoverageReport :=
  let coveredLines := (toolReports.map (fun t => t.summary.coveredLines)).sum
  let totalLines := (toolReports.map (fun t => t.summary.totalLines)).sum
  let percent := pctOf coveredLines totalLines
  let baseCovered := (toolReports.map (fun t => t.summary.baseCoveredLines.getD 0)).sum
  let baseTotal := (toolReports.map (fun t => t.summary.baseTotalLines.getD 0)).sum
  if baseTotal > 0 then
    let basePercent := pctOf baseCovered baseTotal
    { tools := toolReports
      overall :=
        { coveredLines := coveredLines, totalLines := totalLines, percent := percent
          basePercent := some basePercent
          delta := some (round2 (percent - basePercent)) }
      generatedAt := generatedAt }
  else
    { tools := toolReports
      overall :=
        { coveredLines := coveredLines, totalLines := totalLines, percent := percent
          basePercent := none, delta := none }
      generatedAt := generatedAt }

/-! ### Report renderer (render.ts deltaStr) -/

/-- Fuel-driven decimal digit expansion; fuel ≥ n suffices. -/
def natDigitsF : Nat → Nat → List Char
  | 0, n => [Char.ofNat (48 + n % 10)]
  | fuel + 1, n =>
    if n < 10 then [Char.ofNat (48 + n)]
    else natDigitsF fuel (n / 10) ++ [Char.ofNat (48 + n % 10)]

/-- Decimal digits of a natural number. -/
def natDigits (n : Nat) : List Char := natDigitsF n n

/-- Number.prototype.toFixed(2) on an exact rational, as a char list. Exact for
multiples of 1/100 — every delta the pipeline feeds deltaStr is one; for other
values it rounds the magnitude to the nearest hundredth as toFixed does. -/
def jsToFixed2 (q : ℚ) : List Char :=
  let n : Nat := (jsRound (|q| * 100)).toNat
  let whole := n / 100
  let frac := n % 100
  (if q < 0 then ['-'] else []) ++ natDigits whole ++ ['.'] ++
    (if frac < 10 then '0' :: natDigits frac else natDigits frac)

/-- d.toFixed(2) percentage body: sign for nonnegative values is prepended by
deltaStr itself, toFixed renders the minus sign of negative values. -/
def deltaStrChars (delta : Option ℚ) (colorize : Bool) : List Char :=
  match delta with
  | none => []
  | some d =>
    let sign : List Char := if 0 ≤ d then ['+'] else []
    let pct : List Char := sign ++ jsToFixed2 d ++ ['%']
    if !colorize then (" (".data) ++ pct ++ [')']
    else if 0 < d then (" [+] ".data) ++ pct
    else if d < 0 then (" [-] ".data) ++ pct
    else []

/-- deltaStr from render.ts. -/
def deltaStr (delta : Option ℚ) (colorize : Bool) : String :=
  ⟨deltaStrChars delta colorize⟩

/-! ### Statement-side definitions

Definitions used only to state the claims: direct filter-and-sum
characterisations of the grouping, the DA directive predicates, and the
null-base delta record. -/

/-- A scanned line is a DA: directive with at least two comma-separated
fields. -/
def isDA2 (line : List Char) : Bool :=
  ("DA:".data).isPrefixOf line && decide ((splitChars [','] (line.drop 3)).length ≥ 2)

/-- A scanned line is a DA: directive whose count field parses numerically to
a value greater than zero. -/
def isDACov (line : List Char) : Bool :=
  ("DA:".data).isPrefixOf line &&
    (match splitChars [','] (line.drop 3) with
     | _ :: countStr :: _ =>
       match jsParseInt countStr with
       | some n => decide (n > 0)
       | none => false
     | _ => false)

/-- Sum of statement counts over all parsed lines of one file. -/
def goTotSum (parsed : List (List Char × ℤ × ℤ)) (p : List Char) : ℤ :=
  ((parsed.filter (fun e => decide (e.1 = p))).map (fun e => e.2.1)).sum

/-- Sum of statement counts over the parsed lines of one file whose hit count
is positive. -/
def goCovSum (parsed : List (List Char × ℤ × ℤ)) (p : List Char) : ℤ :=
  ((parsed.filter (fun e => decide (e.1 = p))).map
    (fun e => if e.2.2 > 0 then e.2.1 else 0)).sum

/-- One step of first-occurrence key collection. -/
def keyStep (ks : List (List Char)) (e : List Char × ℤ × ℤ) : List (List Char) :=
  if e.1 ∈ ks then ks else ks ++ [e.1]

/-- Distinct file paths of the parsed lines, in first-occurrence order (the
iteration order of the JS Map). -/
def goKeys (parsed : List (List Char × ℤ × ℤ)) : List (List Char) :=
  parsed.foldl keyStep []

/-- The delta record a head file receives when there is no base at all. -/
def nullDelta (h : FileCoverage) : FileCoverageDelta :=
  { file := h.file, coveredLines := h.coveredLines, totalLines := h.totalLines
    percent := h.percent, baseCoveredLines := none, baseTotalLines := none
    basePercent := none, delta := none }

/-! ### Order and sorting helper lemmas -/

theorem charListLe_trans : ∀ {a b c : List Char},
    charListLe a b = true → charListLe b c = true → charListLe a c = true := by
  intro a
  induction a with
  | nil => intro b c _ _; rfl
  | cons x xs ih =>
    intro b c hab hbc
    cases b with
    | nil => simp [charListLe] at hab
    | cons y ys =>
      cases c with
      | nil => simp [charListLe] at hbc
      | cons z zs =>
        simp only [charListLe] at hab hbc ⊢
        by_cases hxy : x.toNat < y.toNat
        · simp [hxy] at hab
          by_cases hyz : y.toNat < z.toNat
          · have hxz : x.toNat < z.toNat := lt_trans hxy hyz
            simp [hxz]
          · by_cases hzy : z.toNat < y.toNat
            · simp [hyz, hzy] at hbc
            · have hyz2 : y.toNat = z.toNat := le_antisymm (not_lt.mp hzy) (not_lt.mp hyz)
              have hxz : x.toNat < z.toNat := hyz2 ▸ hxy
              simp [hxz]
        · by_cases hyx : y.toNat < x.toNat
          · simp [hxy, hyx] at hab
          · have hxy2 : x.toNat = y.toNat := le_antisymm (not_lt.mp hyx) (not_lt.mp hxy)
            by_cases hyz : y.toNat < z.toNat
            · have hxz : x.toNat < z.toNat := hxy2 ▸ hyz
              simp [hxz]
            · by_cases hzy : z.toNat < y.toNat
              · simp [hyz, hzy] at hbc
              · have hyz2 : y.toNat = z.toNat := le_antisymm (not_lt.mp hzy) (not_lt.mp hyz)
                have h1 : ¬ x.toNat < z.toNat := by rw [hxy2, hyz2]; exact lt_irrefl _
                have h2 : ¬ z.toNat < x.toNat := by rw [hxy2, hyz2]; exact lt_irrefl _
                simp only [h1, h2, if_false, ite_false]
                simp [hxy, hyx] at hab
                simp [hyz, hzy] at hbc
                exact ih hab hbc

theorem charListLe_total : ∀ (a b : List Char),
    charListLe a b = true ∨ charListLe b a = true := by
  intro a
  induction a with
  | nil => intro b; left; rfl
  | cons x xs ih =>
    intro b
    cases b with
    | nil => right; rfl
    | cons y ys =>
      simp only [charListLe]
      by_cases hxy : x.toNat < y.toNat
      · left; simp [hxy]
      · by_cases hyx : y.toNat < x.toNat
        · right; simp [hyx]
        · rcases ih ys with h | h
          · left; simp [hxy, hyx, h]
          · right; simp [hxy, hyx, h]

theorem strLe_trans {a b c : String} (h1 : strLe a b = true) (h2 : strLe b c = true) :
    strLe a c = true := charListLe_trans h1 h2

theorem strLe_total (a b : String) : strLe a b = true ∨ strLe b a = true :=
  charListLe_total a.data b.data

theorem sortByFile_perm (l : List FileCoverageDelta) : List.Perm (sortByFile l) l :=
  List.mergeSort_perm l _

theorem sortByFile_sorted (l : List FileCoverageDelta) :
    List.Pairwise (fun a b => strLe a.file b.file = true) (sortByFile l) := by
  have h := List.sorted_mergeSort
    (fun (a b c : FileCoverageDelta) (h1 : strLe a.file b.file = true)
      (h2 : strLe b.file c.file = true) => strLe_trans h1 h2)
    (fun (a b : FileCoverageDelta) => by
      rcases strLe_total a.file b.file with h | h <;> simp [h]) l
  simpa [sortByFile] using h

theorem goSort_perm (l : List FileCoverage) :
    List.Perm (l.mergeSort (fun a b => strLe a.file b.file)) l :=
  List.mergeSort_perm l _

theorem goSort_sorted (l : List FileCoverage) :
    List.Pairwise (fun a b => strLe a.file b.file = true)
      (l.mergeSort (fun a b => strLe a.file b.file)) := by
  have h := List.sorted_mergeSort
    (fun (a b c : FileCoverage) (h1 : strLe a.file b.file = true)
      (h2 : strLe b.file c.file = true) => strLe_trans h1 h2)
    (fun (a b : FileCoverage) => by
      rcases strLe_total a.file b.file with h | h <;> simp [h]) l
  simpa using h

/-! ### Diff engine helper lemmas -/

theorem headDelta_nil (h : FileCoverage) : headDelta [] h = nullDelta h := rfl

theorem computeFileDiffs_none_eq (hs : List FileCoverage) :
    computeFileDiffs hs none = sortByFile (hs.map nullDelta) := by
  simp only [computeFileDiffs, Option.getD_none]
  rw [List.append_nil]
  rw [List.map_congr_left (fun h _ => headDelta_nil h)]

/-! ### Claim C6 -/

/-- C6: for every head and base input, the list returned by computeFileDiffs
is sorted lexicographically by file path (localeCompare modelled as code point
order), regardless of the order of the head or base records. -/
theorem claim_C6 (headFiles : List FileCoverage) (baseFiles : Option (List FileCoverage)) :
    List.Pairwise (fun a b => strLe a.file b.file = true)
      (computeFileDiffs headFiles baseFiles) := by
  simp only [computeFileDiffs]
  exact sortByFile_sorted _

/-! ### Claim C5 -/

/-- C5: with a null base, computeFileDiffs returns exactly the head records
wrapped with all base fields and delta null (then path-sorted), one output
record per head record and no synthetic deleted-file records. -/
theorem claim_C5 (hs : List FileCoverage) :
    computeFileDiffs hs none =
      sortByFile (hs.map (fun h =>
        { file := h.file, coveredLines := h.coveredLines, totalLines := h.totalLines
          percent := h.percent, baseCoveredLines := none, baseTotalLines := none
          basePercent := none, delta := none })) ∧
    (computeFileDiffs hs none).length = hs.length := by
  constructor
  · exact computeFileDiffs_none_eq hs
  · rw [computeFileDiffs_none_eq hs]
    calc (sortByFile (hs.map nullDelta)).length
        = (hs.map nullDelta).length := (sortByFile_perm _).length_eq
      _ = hs.length := List.length_map _ _

theorem buildToolReport_summary_head (tool : String) (hs : List FileCoverage)
    (bArt : Option CoverageArtifact) (ws : List String) :
    (buildToolReport tool hs bArt ws).summary.coveredLines
        = (hs.map (fun f => f.coveredLines)).sum ∧
    (buildToolReport tool hs bArt ws).summary.totalLines
        = (hs.map (fun f => f.totalLines)).sum ∧
    (buildToolReport tool hs bArt ws).summary.percent
        = pctOf ((hs.map (fun f => f.coveredLines)).sum) ((hs.map (fun f => f.totalLines)).sum) := by
  cases bArt with
  | none => exact ⟨rfl, rfl, rfl⟩
  | some a =>
    simp only [buildToolReport, Option.map_some']
    split
    · exact ⟨rfl, rfl, rfl⟩
    · exact ⟨rfl, rfl, rfl⟩

theorem buildToolReport_files (tool : String) (hs : List FileCoverage)
    (bArt : Option CoverageArtifact) (ws : List String) :
    (buildToolReport tool hs bArt ws).files
      = computeFileDiffs hs (bArt.map (fun a => a.files)) := by
  cases bArt with
  | none => rfl
  | some a =>
    simp only [buildToolReport, Option.map_some']
    split
    · rfl
    · rfl

theorem pctOf_pos_eq_round2 (c t : ℚ) (ht : t > 0) : pctOf c t = round2 (c / t * 100) := by
  simp only [pctOf, round2, if_pos ht]
  rw [show c / t * 100 * 100 = c / t * 10000 by ring]

/-! ### Claim C1 -/

/-- C1: buildToolReport sums raw coveredLines and totalLines across the head
records only (delta-augmented synthetic entries never enter the summary), and
derives the summary percent as round2 of covered over total times 100 when the
total is positive and as 100 when the total is 0; head files with counts 1 of 3
and 9 of 10 yield summary percent 76.92 (also when the base adds a synthetic
deleted entry to the file list), not the mean 61.67 of per-file percentages. -/
theorem claim_C1 :
    (∀ (tool : String) (hs : List FileCoverage) (bArt : Option CoverageArtifact)
        (ws : List String),
      (buildToolReport tool hs bArt ws).summary.coveredLines
          = (hs.map (fun f => f.coveredLines)).sum ∧
      (buildToolReport tool hs bArt ws).summary.totalLines
          = (hs.map (fun f => f.totalLines)).sum ∧
      ((hs.map (fun f => f.totalLines)).sum > 0 →
        (buildToolReport tool hs bArt ws).summary.percent
          = round2 ((hs.map (fun f => f.coveredLines)).sum
              / (hs.map (fun f => f.totalLines)).sum * 100)) ∧
      ((hs.map (fun f => f.totalLines)).sum = 0 →
        (buildToolReport tool hs bArt ws).summary.percent = 100)) ∧
    (buildToolReport "bun" [⟨"a.ts", 1, 3, 3333/100⟩, ⟨"b.ts", 9, 10, 90⟩]
        none []).summary.percent = 7692/100 ∧
    (buildToolReport "bun" [⟨"a.ts", 1, 3, 3333/100⟩, ⟨"b.ts", 9, 10, 90⟩]
        (some ⟨"bun", [⟨"c.ts", 5, 10, 50⟩], "sha", "main", "ts"⟩) []).summary.percent
      = 7692/100 ∧
    (buildToolReport "bun" [⟨"a.ts", 1, 3, 3333/100⟩, ⟨"b.ts", 9, 10, 90⟩]
        (some ⟨"bun", [⟨"c.ts", 5, 10, 50⟩], "sha", "main", "ts"⟩) []).files.length = 3 ∧
    (7692 : ℚ)/100 ≠ 6167/100 := by
  refine ⟨?_, ?_, ?_, ?_, by norm_num⟩
  · intro tool hs bArt ws
    obtain ⟨h1, h2, h3⟩ := buildToolReport_summary_head tool hs bArt ws
    refine ⟨h1, h2, ?_, ?_⟩
    · intro hpos
      rw [h3, pctOf_pos_eq_round2 _ _ hpos]
    · intro hzero
      rw [h3, hzero, pctOf]
      norm_num
  · rw [(buildToolReport_summary_head _ _ _ _).2.2]
    simp only [List.map_cons, List.map_nil, List.sum_cons, List.sum_nil]
    norm_num [pctOf, jsRound]
  · rw [(buildToolReport_summary_head _ _ _ _).2.2]
    simp only [List.map_cons, List.map_nil, List.sum_cons, List.sum_nil]
    norm_num [pctOf, jsRound]
  · rw [buildToolReport_files]
    simp only [Option.map_some']
    rw [computeFileDiffs]
    rw [(sortByFile_perm _).length_eq]
    simp [List.filter, List.any]

/-- Witness for claim C1 at a concrete input. -/
theorem claim_C1_witness :
    ((([(⟨"m.go", 2, 4, 50⟩ : FileCoverage)].map (fun f => f.totalLines)).sum > 0) ∧
     (buildToolReport "go" [⟨"m.go", 2, 4, 50⟩] none []).summary.percent
       = round2 (([(⟨"m.go", 2, 4, 50⟩ : FileCoverage)].map (fun f => f.coveredLines)).sum
           / ([(⟨"m.go", 2, 4, 50⟩ : FileCoverage)].map (fun f => f.totalLines)).sum * 100)) := by
  have hpos : (([(⟨"m.go", 2, 4, 50⟩ : FileCoverage)].map (fun f => f.totalLines)).sum : ℚ) > 0 := by
    simp
  exact ⟨hpos, (claim_C1.1 "go" [⟨"m.go", 2, 4, 50⟩] none []).2.2.1 hpos⟩

/-! ### Claim C10 -/

theorem list_sum_pos_of_exists {l : List ℚ} (h1 : ∀ x ∈ l, 0 ≤ x)
    (h2 : ∃ x ∈ l, 0 < x) : 0 < l.sum := by
  induction l with
  | nil => simp at h2
  | cons a as ih =>
    obtain ⟨x, hx, hx0⟩ := h2
    simp only [List.sum_cons]
    have has : (0:ℚ) ≤ as.sum :=
      List.sum_nonneg (fun y hy => h1 y (List.mem_cons_of_mem a hy))
    rcases List.mem_cons.mp hx with rfl | hmem
    · linarith
    · have ha : (0:ℚ) ≤ a := h1 a (List.mem_cons_self a as)
      have := ih (fun y hy => h1 y (List.mem_cons_of_mem a hy)) ⟨x, hmem, hx0⟩
      linarith

/-- C10: buildFullReport sums raw counts across all tool summaries for the
overall percent; tools without a base contribute 0 to the summed base counts,
so the overall basePercent is the raw-count ratio over the tools that have a
base, and basePercent and delta are non-null whenever the summed base total is
positive — in particular whenever all per-tool base totals are non-negative
and at least one is positive. -/
theorem claim_C10 (ts : List ToolCoverageReport) (ga : String) :
    (buildFullReport ts ga).overall.coveredLines
        = (ts.map (fun t => t.summary.coveredLines)).sum ∧
    (buildFullReport ts ga).overall.totalLines
        = (ts.map (fun t => t.summary.totalLines)).sum ∧
    (buildFullReport ts ga).overall.percent
        = pctOf ((ts.map (fun t => t.summary.coveredLines)).sum)
            ((ts.map (fun t => t.summary.totalLines)).sum) ∧
    (buildFullReport ts ga).overall.basePercent
        = (if (ts.map (fun t => t.summary.baseTotalLines.getD 0)).sum > 0
           then some (pctOf ((ts.map (fun t => t.summary.baseCoveredLines.getD 0)).sum)
               ((ts.map (fun t => t.summary.baseTotalLines.getD 0)).sum))
           else none) ∧
    (buildFullReport ts ga).overall.delta
        = (if (ts.map (fun t => t.summary.baseTotalLines.getD 0)).sum > 0
           then some (round2 (pctOf ((ts.map (fun t => t.summary.coveredLines)).sum)
                 ((ts.map (fun t => t.summary.totalLines)).sum)
               - pctOf ((ts.map (fun t => t.summary.baseCoveredLines.getD 0)).sum)
                 ((ts.map (fun t => t.summary.baseTotalLines.getD 0)).sum)))
           else none) ∧
    ((∀ t ∈ ts, 0 ≤ t.summary.baseTotalLines.getD 0) →
      (∃ t ∈ ts, 0 < t.summary.baseTotalLines.getD 0) →
      (buildFullReport ts ga).overall.basePercent ≠ none ∧
        (buildFullReport ts ga).overall.delta ≠ none) := by
  refine ⟨?_, ?_, ?_, ?_, ?_, ?_⟩ <;>
    by_cases hbt : (ts.map (fun t => t.summary.baseTotalLines.getD 0)).sum > 0
  · simp only [buildFullReport, if_pos hbt]
  · simp only [buildFullReport, if_neg hbt]
  · simp only [buildFullReport, if_pos hbt]
  · simp only [buildFullReport, if_neg hbt]
  · simp only [buildFullReport, if_pos hbt]
  · simp only [buildFullReport, if_neg hbt]
  · simp only [buildFullReport, if_pos hbt]
  · simp only [buildFullReport, if_neg hbt]
  · simp only [buildFullReport, if_pos hbt]
  · simp only [buildFullReport, if_neg hbt]
  · intro _ _
    simp only [buildFullReport, if_pos hbt]
    exact ⟨by simp, by simp⟩
  · intro hall hex
    exfalso
    apply hbt
    apply list_sum_pos_of_exists
    · intro x hx
      obtain ⟨t, ht, rfl⟩ := List.mem_map.mp hx
      exact hall t ht
    · obtain ⟨t, ht, ht0⟩ := hex
      exact ⟨_, List.mem_map_of_mem _ ht, ht0⟩

/-- Witness for claim C10 at a concrete input: one tool with a base summary of
8 of 10, one tool without a base. -/
theorem claim_C10_witness :
    (buildFullReport
        [⟨"bun", [], ⟨5, 10, 50, some 8, some 10, some 80, some (-30)⟩, []⟩,
         ⟨"go", [], ⟨3, 10, 30, none, none, none, none⟩, []⟩] "ts").overall.basePercent
      ≠ none := by
  refine ((claim_C10
      [⟨"bun", [], ⟨5, 10, 50, some 8, some 10, some 80, some (-30)⟩, []⟩,
       ⟨"go", [], ⟨3, 10, 30, none, none, none, none⟩, []⟩] "ts").2.2.2.2.2 ?_ ?_).1
  · intro t ht
    fin_cases ht <;> norm_num
  · refine ⟨⟨"bun", [], ⟨5, 10, 50, some 8, some 10, some 80, some (-30)⟩, []⟩, ?_, by norm_num⟩
    simp

/-! ### Claim C4 -/

/-- C4 counterexample: the code rounds with Math.round, which rounds a scaled
value of exactly minus one half toward positive infinity, not away from zero:
a head/base pair whose percents differ by -0.005 gets delta 0, while
round-half-away-from-zero (the mode the claim states) yields -0.01. -/
theorem claim_C4_counterexample :
    (computeFileDiffs [⟨"a.ts", 0, 0, 1/200⟩] (some [⟨"a.ts", 0, 0, 1/100⟩])).map
        (fun r => r.delta) = [some 0] ∧
    round2AwaySpec (1/200 - 1/100) = -(1/100) ∧
    (some (0:ℚ) : Option ℚ) ≠ some (-(1/100)) := by
  refine ⟨?_, ?_, by norm_num⟩
  · have h1 : computeFileDiffs [⟨"a.ts", 0, 0, 1/200⟩] (some [⟨"a.ts", 0, 0, 1/100⟩])
        = sortByFile [headDelta [⟨"a.ts", 0, 0, 1/100⟩] ⟨"a.ts", 0, 0, 1/200⟩] := by
      simp only [computeFileDiffs, Option.getD_some]
      congr 1
    rw [h1, sortByFile, List.mergeSort_singleton]
    have h2 : headDelta [⟨"a.ts", 0, 0, 1/100⟩] ⟨"a.ts", 0, 0, 1/200⟩
        = { file := "a.ts", coveredLines := 0, totalLines := 0, percent := 1/200
            baseCoveredLines := some 0, baseTotalLines := some 0
            basePercent := some (1/100)
            delta := some (round2 (1/200 - 1/100)) } := by
      simp [headDelta, baseLookup, List.find?]
    rw [h2]
    simp only [List.map_cons, List.map_nil, List.cons.injEq, and_true, Option.some.injEq]
    norm_num [round2, jsRound]
  · norm_num [round2AwaySpec]

/-- C4 amended: every derived delta of matched files is round2 of the percent
difference, where round2 is Math.round(x*100)/100 with Math.round rounding
half toward positive infinity: it agrees with round-half-away-from-zero on all
non-negative inputs (hence on every percentage), but a negative delta whose
scaled value is exactly half rounds toward zero, e.g. -0.005 to 0, not to
-0.01. -/
theorem claim_C4_amended :
    (∀ (bm : List FileCoverage) (h b : FileCoverage),
      baseLookup bm h.file = some b →
      (headDelta bm h).delta = some (round2 (h.percent - b.percent))) ∧
    (∀ x : ℚ, round2 x = ((⌊x * 100 + 1/2⌋ : ℤ) : ℚ) / 100) ∧
    (∀ x : ℚ, 0 ≤ x → round2 x = round2AwaySpec x) ∧
    round2 (-(1/200)) = 0 ∧ round2AwaySpec (-(1/200)) = -(1/100) := by
  refine ⟨?_, ?_, ?_, ?_, ?_⟩
  · intro bm h b hb
    simp [headDelta, hb]
  · intro x; rfl
  · intro x hx
    simp [round2, round2AwaySpec, jsRound, if_pos hx]
  · norm_num [round2, jsRound]
  · norm_num [round2AwaySpec]

/-- Witness for the amended claim C4 at concrete inputs. -/
theorem claim_C4_witness :
    ((headDelta [⟨"a.ts", 1, 2, 50⟩] ⟨"a.ts", 1, 2, 60⟩).delta
        = some (round2 ((60:ℚ) - 50)) ∧
     round2 (1/2) = round2AwaySpec (1/2)) := by
  constructor
  · have hl : baseLookup [⟨"a.ts", 1, 2, 50⟩]
        ((⟨"a.ts", 1, 2, 60⟩ : FileCoverage).file) = some ⟨"a.ts", 1, 2, 50⟩ := by
      simp [baseLookup, List.find?]
    exact claim_C4_amended.1 [⟨"a.ts", 1, 2, 50⟩] ⟨"a.ts", 1, 2, 60⟩ ⟨"a.ts", 1, 2, 50⟩ hl
  · exact claim_C4_amended.2.2.1 (1/2) (by norm_num)

theorem headDelta_file (bs : List FileCoverage) (h : FileCoverage) :
    (headDelta bs h).file = h.file := by
  cases hb : baseLookup bs h.file <;> simp [headDelta, hb]

/-! ### Claim C2 -/

/-- C2: for base lists without duplicate paths, every base record whose path
matches no head record yields exactly one synthetic delta record for that
path, with coveredLines = totalLines = percent = 0, the base fields copied
from the base record, and delta = -basePercent. -/
theorem claim_C2 (hs bs : List FileCoverage)
    (hnd : (bs.map (fun f => f.file)).Nodup)
    (b : FileCoverage) (hb : b ∈ bs)
    (hnot : b.file ∉ hs.map (fun f => f.file)) :
    deletedDelta b ∈ computeFileDiffs hs (some bs) ∧
    (computeFileDiffs hs (some bs)).countP (fun r => r.file == b.file) = 1 ∧
    deletedDelta b = ⟨b.file, 0, 0, 0, some b.coveredLines, some b.totalLines,
      some b.percent, some (-b.percent)⟩ := by
  have hdel : (fun bb => !(hs.any (fun h => h.file == bb.file))) b = true := by
    simp only [Bool.not_eq_true']
    rw [List.any_eq_false]
    intro h hh
    simp only [beq_iff_eq]
    intro hfeq
    exact hnot (hfeq ▸ List.mem_map_of_mem (fun f => f.file) hh)
  have hperm := sortByFile_perm
    (hs.map (headDelta bs) ++
      (bs.filter (fun bb => !(hs.any (fun h => h.file == bb.file)))).map deletedDelta)
  have heq : computeFileDiffs hs (some bs) =
      sortByFile (hs.map (headDelta bs) ++
        (bs.filter (fun bb => !(hs.any (fun h => h.file == bb.file)))).map deletedDelta) := rfl
  refine ⟨?_, ?_, rfl⟩
  · rw [heq]
    rw [hperm.mem_iff]
    apply List.mem_append_right
    exact List.mem_map_of_mem deletedDelta (List.mem_filter.mpr ⟨hb, hdel⟩)
  · rw [heq, hperm.countP_eq]
    rw [List.countP_append]
    have h1 : (hs.map (headDelta bs)).countP (fun r => r.file == b.file) = 0 := by
      rw [List.countP_eq_zero]
      intro a ha
      obtain ⟨h, hh, rfl⟩ := List.mem_map.mp ha
      simp only [headDelta_file, beq_iff_eq]
      intro hfeq
      exact hnot (hfeq ▸ List.mem_map_of_mem (fun f => f.file) hh)
    have h2 : ((bs.filter (fun bb => !(hs.any (fun h => h.file == bb.file)))).map
        deletedDelta).countP (fun r => r.file == b.file) = 1 := by
      rw [List.countP_map]
      rw [List.countP_filter]
      have hcg : bs.countP
          (fun bb => ((fun r : FileCoverageDelta => r.file == b.file) ∘ deletedDelta) bb
            && !(hs.any (fun h => h.file == bb.file)))
          = bs.countP (fun bb => bb.file == b.file) := by
        apply List.countP_congr
        intro bb _
        simp only [Function.comp_apply, deletedDelta, beq_iff_eq]
        by_cases hfe : bb.file = b.file
        · simp only [hfe, decide_eq_true_eq]
          have : (!(hs.any (fun h => h.file == b.file))) = true := hdel
          simp only [hfe] at this ⊢
          rw [this]
          simp
        · simp [hfe]
      rw [hcg]
      have : bs.countP (fun bb => bb.file == b.file)
          = (bs.map (fun f => f.file)).count b.file := by
        rw [List.count, List.countP_map]
        rfl
      rw [this]
      exact List.count_eq_one_of_mem hnd (List.mem_map_of_mem (fun f => f.file) hb)
    rw [h1, h2]

/-- Witness for claim C2 at a concrete input. -/
theorem claim_C2_witness :
    deletedDelta ⟨"gone.ts", 4, 5, 80⟩ ∈
      computeFileDiffs [⟨"keep.ts", 1, 2, 50⟩] (some [⟨"gone.ts", 4, 5, 80⟩]) := by
  have hnd : (([(⟨"gone.ts", 4, 5, 80⟩ : FileCoverage)]).map (fun f => f.file)).Nodup := by
    simp
  have hb : (⟨"gone.ts", 4, 5, 80⟩ : FileCoverage) ∈ [(⟨"gone.ts", 4, 5, 80⟩ : FileCoverage)] := by
    simp
  have hnot : (⟨"gone.ts", 4, 5, 80⟩ : FileCoverage).file ∉
      ([(⟨"keep.ts", 1, 2, 50⟩ : FileCoverage)]).map (fun f => f.file) := by
    simp
  exact (claim_C2 _ _ hnd _ hb hnot).1

/-! ### Lcov scan counting lemmas -/

theorem sf_excludes_da {line : List Char} (h : ("SF:".data).isPrefixOf line = true) :
    ("DA:".data).isPrefixOf line = false := by
  cases line with
  | nil => simp [List.isPrefixOf] at h
  | cons c rest =>
    have hc : 'S' = c := by
      rw [show ("SF:".data) = 'S' :: "F:".data from rfl] at h
      simp only [List.isPrefixOf, Bool.and_eq_true, beq_iff_eq] at h
      exact h.1
    subst hc
    rw [show ("DA:".data) = 'D' :: "A:".data from rfl]
    simp only [List.isPrefixOf]
    rw [show ('D' == 'S') = false from rfl]
    simp

theorem lcovStep_counts (st : LcovScan) (line : List Char) :
    (lcovStep st line).total = st.total + (if isDA2 line then 1 else 0) ∧
    (lcovStep st line).covered = st.covered + (if isDACov line then 1 else 0) := by
  by_cases hsf : (("SF:".data).isPrefixOf line) = true
  · have hda := sf_excludes_da hsf
    simp [lcovStep, hsf, isDA2, isDACov, hda]
  · by_cases hda : (("DA:".data).isPrefixOf line) = true
    · match hsplit : splitChars [','] (line.drop 3) with
      | [] => simp [lcovStep, hsf, hda, hsplit, isDA2, isDACov]
      | [x] => simp [lcovStep, hsf, hda, hsplit, isDA2, isDACov]
      | x :: y :: zs =>
        match hpi : jsParseInt y with
        | some n =>
          by_cases hn : n > 0
          · simp [lcovStep, hsf, hda, hsplit, isDA2, isDACov, hpi, hn]
          · simp [lcovStep, hsf, hda, hsplit, isDA2, isDACov, hpi, hn]
        | none => simp [lcovStep, hsf, hda, hsplit, isDA2, isDACov, hpi]
    · have h2 : isDA2 line = false := by simp [isDA2, hda]
      have h3 : isDACov line = false := by simp [isDACov, hda]
      simp only [lcovStep, h2, h3, if_neg hsf, if_neg hda, if_false]
      split
      · simp
      · split
        · simp
        · simp

theorem lcovFold_counts (lines : List (List Char)) : ∀ st : LcovScan,
    (lines.foldl lcovStep st).total = st.total + lines.countP isDA2 ∧
    (lines.foldl lcovStep st).covered = st.covered + lines.countP isDACov := by
  induction lines with
  | nil => intro st; simp
  | cons l ls ih =>
    intro st
    simp only [List.foldl_cons, List.countP_cons]
    obtain ⟨ht, hc⟩ := ih (lcovStep st l)
    obtain ⟨ht1, hc1⟩ := lcovStep_counts st l
    constructor
    · rw [ht, ht1]
      cases hp : isDA2 l <;> simp [hp] <;> omega
    · rw [hc, hc1]
      cases hp : isDACov l <;> simp [hp] <;> omega

/-! ### Claim C7 -/

/-- C7: in the parseLcov directive loop, every DA: line with at least two
comma-separated fields contributes exactly one unit to totalLines; it
contributes one unit to coveredLines exactly when its count field parses
numerically to a positive value (a malformed count still counts toward
totalLines); a DA: line with a single field contributes nothing; covered
never exceeds total. The embedding is a total function, so the scan never
raises. -/
theorem claim_C7 :
    (∀ (lines : List (List Char)) (st : LcovScan),
      (lines.foldl lcovStep st).total = st.total + lines.countP isDA2 ∧
      (lines.foldl lcovStep st).covered = st.covered + lines.countP isDACov) ∧
    (∀ line, isDACov line = true → isDA2 line = true) ∧
    (∀ lines : List (List Char), lines.countP isDACov ≤ lines.countP isDA2) := by
  have himp : ∀ line, isDACov line = true → isDA2 line = true := by
    intro line h
    simp only [isDACov, Bool.and_eq_true] at h
    obtain ⟨hpre, hrest⟩ := h
    simp only [isDA2, Bool.and_eq_true, hpre, true_and, decide_eq_true_eq]
    match hsplit : splitChars [','] (line.drop 3) with
    | [] => rw [hsplit] at hrest; simp at hrest
    | [x] => rw [hsplit] at hrest; simp at hrest
    | x :: y :: zs => simp [List.length_cons]
  refine ⟨lcovFold_counts, himp, ?_⟩
  intro lines
  exact List.countP_mono_left (fun l hl => himp l)

/-- Witness for claim C7: a scan of four DA: lines — count 0, single field,
malformed count, count 3 — yields total 3 and covered 1. -/
theorem claim_C7_witness :
    ((["DA:5,0".data, "DA:6".data, "DA:7,abc".data, "DA:8,3".data].foldl
        lcovStep lcovInit).total = 3 ∧
     (["DA:5,0".data, "DA:6".data, "DA:7,abc".data, "DA:8,3".data].foldl
        lcovStep lcovInit).covered = 1) ∧
    isDA2 ("DA:1,1".data) = true := by
  refine ⟨⟨?_, ?_⟩, claim_C7.2.1 ("DA:1,1".data) (by decide)⟩
  · rw [(claim_C7.1 ["DA:5,0".data, "DA:6".data, "DA:7,abc".data, "DA:8,3".data] lcovInit).1]
    decide
  · rw [(claim_C7.1 ["DA:5,0".data, "DA:6".data, "DA:7,abc".data, "DA:8,3".data] lcovInit).2]
    decide

/-! ### Renderer character lemmas -/

theorem digitChar_isDigit (k : Nat) (hk : k < 10) :
    (Char.ofNat (48 + k)).isDigit = true := by
  interval_cases k <;> decide

theorem natDigitsF_isDigit : ∀ (fuel n : Nat) {c : Char},
    c ∈ natDigitsF fuel n → c.isDigit = true := by
  intro fuel
  induction fuel with
  | zero =>
    intro n c hc
    simp only [natDigitsF, List.mem_singleton] at hc
    subst hc
    exact digitChar_isDigit _ (Nat.mod_lt _ (by omega))
  | succ fuel ih =>
    intro n c hc
    simp only [natDigitsF] at hc
    split at hc
    · simp only [List.mem_singleton] at hc
      subst hc
      exact digitChar_isDigit _ (by omega)
    · rcases List.mem_append.mp hc with h | h
      · exact ih _ h
      · simp only [List.mem_singleton] at h
        subst h
        exact digitChar_isDigit _ (Nat.mod_lt _ (by omega))

theorem natDigits_isDigit {n : Nat} {c : Char} (hc : c ∈ natDigits n) :
    c.isDigit = true := natDigitsF_isDigit n n hc

theorem lbracket_not_mem_jsToFixed2 (q : ℚ) : '[' ∉ jsToFixed2 q := by
  have hnd : ∀ m : Nat, '[' ∉ natDigits m := by
    intro m hm
    exact absurd (natDigits_isDigit hm) (by decide)
  intro hmem
  simp only [jsToFixed2, List.mem_append, List.mem_cons, List.mem_singleton] at hmem
  rcases hmem with ((h | h) | h) | h
  · split at h
    · simp only [List.mem_singleton] at h
      exact absurd h (by decide)
    · simp at h
  · exact hnd _ h
  · exact absurd h (by decide)
  · split at h
    · rcases List.mem_cons.mp h with h2 | h2
      · exact absurd h2 (by decide)
      · exact hnd _ h2
    · exact hnd _ h

/-! ### Claim C9 -/

/-- C9: with colorize on, a positive delta renders as a bracket-plus marker
followed by the signed fixed-2 percentage, a negative delta as a bracket-minus
marker followed by the negative fixed-2 percentage, and a zero delta renders
no suffix; with colorize off every non-null delta (zero included) renders as
a parenthesised signed percentage with no bracket markers (the rendered text
contains no bracket character at all); a null delta renders nothing in either
mode. -/
theorem claim_C9 :
    (∀ c, deltaStr none c = "") ∧
    (∀ d : ℚ, 0 < d →
      deltaStr (some d) true = ⟨" [+] ".data ++ '+' :: (jsToFixed2 d ++ ['%'])⟩) ∧
    (∀ d : ℚ, d < 0 →
      deltaStr (some d) true = ⟨" [-] ".data ++ (jsToFixed2 d ++ ['%'])⟩) ∧
    deltaStr (some 0) true = "" ∧
    (∀ d : ℚ, deltaStr (some d) false
      = ⟨" (".data ++ (((if 0 ≤ d then ['+'] else []) ++ (jsToFixed2 d ++ ['%'])) ++ [')'])⟩) ∧
    (∀ dOpt : Option ℚ, '[' ∉ (deltaStr dOpt false).data) := by
  refine ⟨?_, ?_, ?_, ?_, ?_, ?_⟩
  · intro c; rfl
  · intro d hd
    have hd0 : 0 ≤ d := le_of_lt hd
    simp only [deltaStr, deltaStrChars, if_pos hd0, if_pos hd, Bool.not_true, Bool.false_eq_true,
      if_false]
    congr 1
  · intro d hd
    have hd0 : ¬ (0 ≤ d) := not_le.mpr hd
    have hd1 : ¬ (0 < d) := by linarith
    simp only [deltaStr, deltaStrChars, if_neg hd0, if_neg hd1, if_pos hd, Bool.not_true,
      Bool.false_eq_true, if_false]
    congr 1
  · simp only [deltaStr, deltaStrChars]
    norm_num
  · intro d
    simp only [deltaStr, deltaStrChars, Bool.not_false, if_true]
    congr 1
    simp
  · intro dOpt
    match dOpt with
    | none => simp [deltaStr, deltaStrChars]
    | some d =>
      simp only [deltaStr, deltaStrChars, Bool.not_false, if_true]
      by_cases hd : (0:ℚ) ≤ d <;>
        simp [hd, List.mem_append, List.mem_cons, lbracket_not_mem_jsToFixed2 d]

/-- Witness for claim C9: concrete renderings in both modes. -/
theorem claim_C9_witness :
    deltaStr (some 10) true = " [+] +10.00%" ∧
    deltaStr (some (-(1/2))) false = " (-0.50%)" := by
  have hfix10 : jsToFixed2 10 = "10.00".data := by
    have hn : (jsRound (|(10:ℚ)| * 100)).toNat = 1000 := by
      have : jsRound (|(10:ℚ)| * 100) = 1000 := by norm_num [jsRound]
      rw [this]; rfl
    have h10 : ¬ ((10:ℚ) < 0) := by norm_num
    simp only [jsToFixed2, hn, if_neg h10]
    decide
  have hfixm : jsToFixed2 (-(1/2)) = "-0.50".data := by
    have hn : (jsRound (|(-(1/2):ℚ)| * 100)).toNat = 50 := by
      have : jsRound (|(-(1/2):ℚ)| * 100) = 50 := by
        rw [abs_neg, abs_of_nonneg (by norm_num : (0:ℚ) ≤ 1/2)]
        norm_num [jsRound]
      rw [this]; rfl
    have hneg : ((-(1/2):ℚ) < 0) := by norm_num
    simp only [jsToFixed2, hn, if_pos hneg]
    decide
  constructor
  · rw [claim_C9.2.1 10 (by norm_num), hfix10]
    decide
  · rw [claim_C9.2.2.2.2.1 (-(1/2)), hfixm]
    have hns : ¬ ((0:ℚ) ≤ -(1/2)) := by norm_num
    rw [if_neg hns]
    decide

/-! ### Go grouping lemmas -/

theorem goCovSum_cons (f : List Char) (s c : ℤ) (rest : List (List Char × ℤ × ℤ))
    (p : List Char) :
    goCovSum ((f, s, c) :: rest) p
      = (if f = p then (if c > 0 then s else 0) else 0) + goCovSum rest p := by
  by_cases h : f = p <;> simp [goCovSum, List.filter, h]

theorem goTotSum_cons (f : List Char) (s c : ℤ) (rest : List (List Char × ℤ × ℤ))
    (p : List Char) :
    goTotSum ((f, s, c) :: rest) p = (if f = p then s else 0) + goTotSum rest p := by
  by_cases h : f = p <;> simp [goTotSum, List.filter, h]

theorem keyStep_nodup {ks : List (List Char)} {e : List Char × ℤ × ℤ}
    (h : ks.Nodup) : (keyStep ks e).Nodup := by
  unfold keyStep
  split
  · exact h
  · simp only [List.nodup_append, List.nodup_cons, List.not_mem_nil, not_false_iff,
      List.nodup_nil, and_true, true_and]
    constructor
    · exact h
    · intro a ha
      simp only [List.mem_singleton]
      intro hae
      subst hae
      exact absurd ha (by assumption)

theorem foldl_keyStep_nodup (rest : List (List Char × ℤ × ℤ)) :
    ∀ ks : List (List Char), ks.Nodup → (rest.foldl keyStep ks).Nodup := by
  induction rest with
  | nil => intro ks h; exact h
  | cons e es ih => intro ks h; exact ih _ (keyStep_nodup h)

theorem goAccum_map_mem : ∀ (ks : List (List Char)) (C T : List Char → ℤ)
    (f : List Char) (s c : ℤ), ks.Nodup → f ∈ ks →
    goAccum (ks.map (fun p => (p, C p, T p))) (f, s, c)
      = ks.map (fun p => (p, (if p = f then C p + (if c > 0 then s else 0) else C p),
          (if p = f then T p + s else T p))) := by
  intro ks
  induction ks with
  | nil => intro C T f s c _ hf; simp at hf
  | cons g ks ih =>
    intro C T f s c hnd hf
    simp only [List.map_cons, goAccum]
    by_cases hgf : g = f
    · rw [if_pos hgf]
      subst hgf
      simp only [if_pos rfl]
      congr 1
      apply List.map_congr_left
      intro p hp
      have hpg : ¬ (p = g) := by
        intro h
        subst h
        exact (List.nodup_cons.mp hnd).1 hp
      simp [hpg]
    · rw [if_neg hgf]
      have hf2 : f ∈ ks := by
        rcases List.mem_cons.mp hf with h | h
        · exact absurd h.symm hgf
        · exact h
      rw [ih C T f s c (List.nodup_cons.mp hnd).2 hf2]
      have hgf2 : ¬ (g = f) := hgf
      simp [hgf2]

theorem goAccum_map_not_mem : ∀ (ks : List (List Char)) (C T : List Char → ℤ)
    (f : List Char) (s c : ℤ), f ∉ ks →
    goAccum (ks.map (fun p => (p, C p, T p))) (f, s, c)
      = ks.map (fun p => (p, C p, T p)) ++ [(f, (if c > 0 then s else 0), s)] := by
  intro ks
  induction ks with
  | nil => intro C T f s c _; rfl
  | cons g ks ih =>
    intro C T f s c hf
    have hgf : ¬ (g = f) := by
      intro h
      exact hf (h ▸ List.mem_cons_self g ks)
    simp only [List.map_cons, goAccum, if_neg hgf, List.cons_append]
    congr 1
    exact ih C T f s c (fun h => hf (List.mem_cons_of_mem g h))

theorem goAccum_foldl : ∀ (rest : List (List Char × ℤ × ℤ)) (ks : List (List Char))
    (C T : List Char → ℤ), ks.Nodup →
    rest.foldl goAccum (ks.map (fun p => (p, C p, T p)))
      = (rest.foldl keyStep ks).map (fun p =>
          (p, (if p ∈ ks then C p else 0) + goCovSum rest p,
              (if p ∈ ks then T p else 0) + goTotSum rest p)) := by
  intro rest
  induction rest with
  | nil =>
    intro ks C T hnd
    simp only [List.foldl_nil]
    apply List.map_congr_left
    intro p hp
    simp [goCovSum, goTotSum, if_pos hp, List.filter]
  | cons e rest ih =>
    intro ks C T hnd
    obtain ⟨f, s, c⟩ := e
    simp only [List.foldl_cons]
    by_cases hf : f ∈ ks
    · rw [goAccum_map_mem ks C T f s c hnd hf]
      rw [ih ks (fun q => if q = f then C q + (if c > 0 then s else 0) else C q)
          (fun q => if q = f then T q + s else T q) hnd]
      have hks : keyStep ks (f, s, c) = ks := by simp [keyStep, hf]
      rw [hks]
      apply List.map_congr_left
      intro p hp
      rw [goCovSum_cons, goTotSum_cons]
      by_cases hpf : p = f
      · subst hpf
        simp only [if_pos rfl, if_pos hf]
        simp only [Prod.mk.injEq, if_true, true_and]
        exact ⟨by ring, by ring⟩
      · have hfp : ¬ (f = p) := fun h => hpf h.symm
        simp only [if_neg hpf, if_neg hfp]
        simp only [Prod.mk.injEq, if_true, true_and]
        exact ⟨by ring, by ring⟩
    · rw [goAccum_map_not_mem ks C T f s c hf]
      have hext : ks.map (fun p => (p, C p, T p)) ++ [(f, (if c > 0 then s else 0), s)]
          = (ks ++ [f]).map (fun p =>
              (p, (fun q => if q = f then (if c > 0 then s else 0) else C q) p,
                  (fun q => if q = f then s else T q) p)) := by
        rw [List.map_append]
        congr 1
        · apply List.map_congr_left
          intro p hp
          have hpf : ¬ (p = f) := by
            intro h
            subst h
            exact hf hp
          simp [hpf]
        · simp
      rw [hext]
      have hnd2 : (ks ++ [f]).Nodup := by
        simp only [List.nodup_append, List.nodup_cons, List.not_mem_nil, not_false_iff,
          List.nodup_nil, and_true, true_and]
        refine ⟨hnd, ?_⟩
        intro a ha
        simp only [List.mem_singleton]
        intro hae
        subst hae
        exact hf ha
      rw [ih (ks ++ [f]) _ _ hnd2]
      have hks : keyStep ks (f, s, c) = ks ++ [f] := by simp [keyStep, hf]
      rw [hks]
      apply List.map_congr_left
      intro p hp
      rw [goCovSum_cons, goTotSum_cons]
      by_cases hpf : p = f
      · subst hpf
        simp only [if_pos rfl, if_neg hf, List.mem_append, List.mem_singleton, or_true,
          if_pos]
        simp only [Prod.mk.injEq, if_true, true_and]
        exact ⟨by ring, by ring⟩
      · have hfp : ¬ (f = p) := fun h => hpf h.symm
        have hmem : (p ∈ ks ++ [f]) ↔ (p ∈ ks) := by
          simp [List.mem_append, hpf]
        simp only [if_neg hpf, if_neg hfp, hmem]
        simp only [Prod.mk.injEq, if_true, true_and]
        exact ⟨by ring, by ring⟩

theorem parseGoCover_eq (content : String) :
    parseGoCover content
      = ((goKeys (goParsedLines content)).map (fun p =>
          mkGoRecord (p, goCovSum (goParsedLines content) p,
            goTotSum (goParsedLines content) p))).mergeSort
          (fun a b => strLe a.file b.file) := by
  unfold parseGoCover goKeys
  have h0 : ([] : List (List Char × ℤ × ℤ))
      = ([] : List (List Char)).map (fun p => (p, (0:ℤ), (0:ℤ))) := rfl
  rw [h0, goAccum_foldl (goParsedLines content) [] (fun _ => 0) (fun _ => 0) List.nodup_nil]
  simp only [List.map_map]
  congr 1
  apply List.map_congr_left
  intro p hp
  simp

/-! ### Claim C8 -/

/-- C8: parseGoCover groups lines by file path, adding each statement count to
the total of the path and to its covered total exactly when the hit count is
positive (whole ranges, never partial), and returns one record per distinct
path sorted by path; the two-line example over a.go yields the single record
covered 3, total 5, percent 60. -/
theorem claim_C8 :
    (∀ content : String,
      parseGoCover content
        = ((goKeys (goParsedLines content)).map (fun p =>
            mkGoRecord (p, goCovSum (goParsedLines content) p,
              goTotSum (goParsedLines content) p))).mergeSort
            (fun a b => strLe a.file b.file) ∧
      List.Pairwise (fun a b => strLe a.file b.file = true) (parseGoCover content) ∧
      ((parseGoCover content).map (fun r => r.file)).Nodup) ∧
    parseGoCover "mode: set\na.go:1.1,5.2 3 1\na.go:6.1,10.2 2 0"
      = [⟨"a.go", 3, 5, 60⟩] := by
  constructor
  · intro content
    refine ⟨parseGoCover_eq content, ?_, ?_⟩
    · rw [parseGoCover_eq content]
      exact goSort_sorted _
    · rw [parseGoCover_eq content]
      have hperm := (goSort_perm ((goKeys (goParsedLines content)).map (fun p =>
          mkGoRecord (p, goCovSum (goParsedLines content) p,
            goTotSum (goParsedLines content) p)))).map (fun r => r.file)
      rw [hperm.nodup_iff]
      rw [List.map_map]
      have heq : ((fun r : FileCoverage => r.file) ∘ (fun p =>
          mkGoRecord (p, goCovSum (goParsedLines content) p,
            goTotSum (goParsedLines content) p)))
          = fun p => (⟨p⟩ : String) := rfl
      rw [heq]
      apply List.Nodup.map
      · intro a b hab
        injection hab
      · exact foldl_keyStep_nodup _ [] List.nodup_nil
  · have hp : goParsedLines "mode: set\na.go:1.1,5.2 3 1\na.go:6.1,10.2 2 0"
        = [("a.go".data, 3, 1), ("a.go".data, 2, 0)] := by decide
    have hg : ([("a.go".data, (3:ℤ), (1:ℤ)), ("a.go".data, 2, 0)].foldl goAccum
        ([] : List (List Char × ℤ × ℤ))) = [("a.go".data, 3, 5)] := by decide
    show (((goParsedLines "mode: set\na.go:1.1,5.2 3 1\na.go:6.1,10.2 2 0").foldl goAccum
        []).map mkGoRecord).mergeSort (fun a b => strLe a.file b.file) = _
    rw [hp, hg]
    rw [List.map_singleton, List.mergeSort_singleton]
    have hfile : (mkGoRecord ("a.go".data, 3, 5)).file = "a.go" := rfl
    have hrec : mkGoRecord ("a.go".data, 3, 5) = ⟨"a.go", 3, 5, pctOf 3 5⟩ := by
      simp only [mkGoRecord]
      congr 1 <;> push_cast <;> norm_num
    rw [hrec]
    have hpct : pctOf 3 5 = 60 := by
      norm_num [pctOf, jsRound]
    rw [hpct]

/-! ### Claim C3 -/

theorem parseLcov_eq_map_scan (content : String) :
    parseLcov content
      = ((splitChars ("end_of_record".data) content.data).filterMap lcovScanRecord).map
          mkLcovRecord := by
  rw [parseLcov, List.map_filterMap]
  rfl

/-- C3 counterexample: three violations at concrete inputs. The LCOV LH/LF
fallback accepts LH greater than LF and produces percent 250, outside
[0, 100]; rounding makes percent 100 with covered 19999 of total 20000, so
percent 100 does not imply full or empty coverage; and the synthetic
deleted-file records of the diff engine have totalLines 0 with percent 0, not
100. -/
theorem claim_C3_counterexample :
    ((parseLcov "SF:a\nLH:5\nLF:2\nend_of_record").map
        (fun r => (r.coveredLines, r.totalLines, r.percent))
      = [((5:ℚ), (2:ℚ), (250:ℚ))] ∧ ¬ ((250:ℚ) ≤ 100)) ∧
    ((parseGoCover "a.go:1.1,2.2 19999 1\na.go:3.1,4.2 1 0").map
        (fun r => (r.coveredLines, r.totalLines, r.percent))
      = [((19999:ℚ), (20000:ℚ), (100:ℚ))] ∧ (19999:ℚ) ≠ 20000 ∧ (0:ℚ) < 20000) ∧
    (computeFileDiffs [] (some [⟨"a", 1, 2, 50⟩])
      = [⟨"a", 0, 0, 0, some 1, some 2, some 50, some (-50)⟩] ∧ (0:ℚ) ≠ 100) := by
  refine ⟨⟨?_, by norm_num⟩, ⟨?_, by norm_num, by norm_num⟩, ⟨?_, by norm_num⟩⟩
  · rw [parseLcov_eq_map_scan]
    have hscan : (splitChars ("end_of_record".data)
        ("SF:a\nLH:5\nLF:2\nend_of_record".data)).filterMap lcovScanRecord
        = [("a".data, 5, 2)] := by decide
    rw [hscan]
    simp only [List.map_singleton, mkLcovRecord]
    norm_num [pctOf, jsRound]
  · have hp : goParsedLines "a.go:1.1,2.2 19999 1\na.go:3.1,4.2 1 0"
        = [("a.go".data, 19999, 1), ("a.go".data, 1, 0)] := by decide
    have hg : ([("a.go".data, (19999:ℤ), (1:ℤ)), ("a.go".data, 1, 0)].foldl goAccum
        ([] : List (List Char × ℤ × ℤ))) = [("a.go".data, 19999, 20000)] := by decide
    show ((((goParsedLines "a.go:1.1,2.2 19999 1\na.go:3.1,4.2 1 0").foldl goAccum
        []).map mkGoRecord).mergeSort (fun a b => strLe a.file b.file)).map _ = _
    rw [hp, hg, List.map_singleton, List.mergeSort_singleton]
    simp only [List.map_singleton, mkGoRecord]
    norm_num [pctOf, jsRound]
  · have h1 : computeFileDiffs [] (some [⟨"a", 1, 2, 50⟩])
        = sortByFile [deletedDelta ⟨"a", 1, 2, 50⟩] := rfl
    rw [h1, sortByFile, List.mergeSort_singleton]
    rfl

/-- C3 amended: the percent derivation satisfies 0 ≤ percent ≤ 100 whenever
0 ≤ covered ≤ total, percent = 100 when total = 0 and when covered = total,
and every parseGoCover and parseLcov record carries percent derived from its
own covered and total fields by this formula; the failure modes of the
counterexample (LH greater than LF in the LCOV fallback, rounding to 100 just
below full coverage, and synthetic deleted records with total 0 and percent 0)
are the only deviations. -/
theorem claim_C3_amended :
    (∀ c t : ℚ, 0 ≤ c → c ≤ t → 0 ≤ pctOf c t ∧ pctOf c t ≤ 100) ∧
    (∀ c t : ℚ, t = 0 → pctOf c t = 100) ∧
    (∀ c t : ℚ, c = t → pctOf c t = 100) ∧
    (∀ (content : String) (r : FileCoverage), r ∈ parseGoCover content →
      r.percent = pctOf r.coveredLines r.totalLines) ∧
    (∀ (content : String) (r : FileCoverage), r ∈ parseLcov content →
      r.percent = pctOf r.coveredLines r.totalLines) := by
  refine ⟨?_, ?_, ?_, ?_, ?_⟩
  · intro c t hc hct
    unfold pctOf
    split
    · rename_i ht
      have hdiv : (0:ℚ) ≤ c / t := div_nonneg hc (le_of_lt ht)
      have hdiv1 : c / t ≤ 1 := (div_le_one ht).mpr hct
      have hx0 : (0:ℚ) ≤ c / t * 10000 := by nlinarith
      have hx1 : c / t * 10000 ≤ 10000 := by nlinarith
      have hfl0 : (0:ℤ) ≤ jsRound (c / t * 10000) := by
        unfold jsRound
        exact Int.floor_nonneg.mpr (by linarith)
      have hfl1 : jsRound (c / t * 10000) ≤ 10000 := by
        unfold jsRound
        calc ⌊c / t * 10000 + 1/2⌋ ≤ ⌊(10000:ℚ) + 1/2⌋ :=
              Int.floor_le_floor (by linarith)
          _ = 10000 := by norm_num
      constructor
      · have : (0:ℚ) ≤ ((jsRound (c / t * 10000) : ℤ) : ℚ) := by exact_mod_cast hfl0
        exact div_nonneg this (by norm_num)
      · have hcast : ((jsRound (c / t * 10000) : ℤ) : ℚ) ≤ 10000 := by exact_mod_cast hfl1
        rw [div_le_iff (by norm_num : (0:ℚ) < 100)]
        linarith
    · exact ⟨by norm_num, le_refl _⟩
  · intro c t ht
    subst ht
    simp [pctOf]
  · intro c t hct
    subst hct
    unfold pctOf
    split
    · rename_i ht
      rw [div_self (ne_of_gt ht)]
      norm_num [jsRound]
    · rfl
  · intro content r hr
    rw [parseGoCover_eq content] at hr
    rw [(goSort_perm _).mem_iff] at hr
    obtain ⟨p, hp, rfl⟩ := List.mem_map.mp hr
    rfl
  · intro content r hr
    rw [parseLcov_eq_map_scan content] at hr
    obtain ⟨e, he, rfl⟩ := List.mem_map.mp hr
    rfl

/-- Witness for the amended claim C3 at concrete inputs. -/
theorem claim_C3_witness :
    (0 ≤ pctOf 1 2 ∧ pctOf 1 2 ≤ 100) ∧ pctOf 7 7 = 100 ∧ pctOf 9 0 = 100 :=
  ⟨claim_C3_amended.1 1 2 (by norm_num) (by norm_num),
   claim_C3_amended.2.2.1 7 7 rfl,
   claim_C3_amended.2.1 9 0 rfl⟩
